import Mathlib

/-!
Verification of the simulation engine in `RR_weak_mutation.py`
(Kalirad/HoleyPopulationSpeciation): a model of sequence evolution on a
Russian-roulette holey fitness landscape.

The Python source is shallowly embedded:
* a sequence (Python `str` over the alphabet `'0'/'1'`) is a `List Bool`;
* the two module-level caches `viability_dict` and `nu_dict`, together with
  the shared numpy random source, form an explicit `Globals` state threaded
  through every operation;
* Python dicts are association lists with Python's update semantics
  (overwrite in place when the key is present, append otherwise);
* the pseudo-random source is split into a stream of floats (outputs of
  `rnd.random()`) and a stream of naturals (outputs of `rnd.randint`),
  each consumed in program order;
* `assert` statements that can actually fail are modelled with
  `Except Err`; the unbounded `while` loops are given explicit fuel and
  return `none` on exhaustion.
-/

set_option autoImplicit false

namespace HoleyPop

/-- A genotype sequence: Python strings over the binary alphabet. -/
abbrev Seq := List Bool

/-- Error taxonomy for the `assert` statements of the source. -/
inductive Err where
  | invalidProbability
  | lengthMismatch
  | precondition
  deriving DecidableEq

/-- The literal `0.5` of `Orr.substitute`, written as an explicitly reduced
rational so that concrete runs evaluate inside the kernel (`1 / 2 : Rat`
does not kernel-reduce; `half_eq_one_div_two` below identifies the two). -/
def half : ℚ := ⟨1, 2, by norm_num, by norm_num⟩

/-- Lookup in a Python dict modelled as an association list
(first match; keys are kept unique by `dictUpd`). -/
def dictGet {α β : Type} [DecidableEq α] : List (α × β) → α → Option β
  | [], _ => none
  | (k, v) :: rest, a => if a = k then some v else dictGet rest a

/-- Python dict assignment `d[k] = v` / `d.update({k: v})`: overwrite in
place when the key is present, append otherwise (insertion order kept). -/
def dictUpd {α β : Type} [DecidableEq α] (d : List (α × β)) (k : α) (v : β) :
    List (α × β) :=
  if (dictGet d k).isSome then
    d.map (fun kv => if kv.1 = k then (k, v) else kv)
  else d ++ [(k, v)]

/-- The shared pseudo-random source: a stream of floats (values returned by
`rnd.random()`) and a stream of naturals (values behind `rnd.randint`). -/
structure Rng where
  floats : Nat → ℚ
  ints : Nat → ℕ

/-- Consume one output of `rnd.random()`. -/
def Rng.nextFloat (r : Rng) : ℚ × Rng :=
  (r.floats 0, ⟨fun n => r.floats (n + 1), r.ints⟩)

/-- Consume one output of `rnd.randint`. -/
def Rng.nextInt (r : Rng) : ℕ × Rng :=
  (r.ints 0, ⟨r.floats, fun n => r.ints (n + 1)⟩)

/-- The module-level mutable state of `RR_weak_mutation.py`: the two global
caches `viability_dict` and `nu_dict` plus the random source. -/
structure Globals where
  viability_dict : List (Seq × Bool)
  nu_dict : List (Seq × ℚ)
  rng : Rng

/-- A `Genotype` object: sequence, viability probability and the viability
attribute set by `get_viability` at construction.  `L` is derived. -/
structure Genotype where
  seq : Seq
  p : ℚ
  viable : Bool
  deriving DecidableEq

/-- Python `self.L = len(seq)`. -/
def Genotype.L (g : Genotype) : ℕ := g.seq.length

/-- `Genotype.get_viability`: if the sequence is in `viability_dict`, return
the recorded outcome and leave the state untouched; otherwise draw
`rand = rnd.random()`, record `rand < p`, and return it. -/
def Genotype.get_viability (seq : Seq) (p : ℚ) (g : Globals) : Bool × Globals :=
  match dictGet g.viability_dict seq with
  | some b => (b, g)
  | none =>
    let fr := g.rng.nextFloat
    let viable := if fr.1 < p then true else false
    (viable, { g with viability_dict := dictUpd g.viability_dict seq viable,
                      rng := fr.2 })

/-- The `Genotype(seq, p)` constructor body after its probability asserts:
stores the sequence and `p` and runs `get_viability`. -/
def Genotype.init (seq : Seq) (p : ℚ) (g : Globals) : Genotype × Globals :=
  let vg := Genotype.get_viability seq p g
  (⟨seq, p, vg.1⟩, vg.2)

/-- The full `Genotype(seq, p)` constructor including its asserts
`p >= 0` and `p <= 1`. -/
def Genotype.initChecked (seq : Seq) (p : ℚ) (g : Globals) :
    Except Err (Genotype × Globals) :=
  if 0 ≤ p ∧ p ≤ 1 then .ok (Genotype.init seq p g)
  else .error .invalidProbability

/-- `Genotype.make_viable`: construct the genotype; if the drawn outcome is
inviable, set the object's flag and overwrite `viability_dict[seq]` with
`True`. -/
def Genotype.make_viable (seq : Seq) (p : ℚ) (g : Globals) : Genotype × Globals :=
  let ig := Genotype.init seq p g
  if ig.1.viable then ig
  else ({ ig.1 with viable := true },
        { ig.2 with viability_dict := dictUpd ig.2.viability_dict seq true })

/-- Flip the allele at one site: `seq[:i] + str(abs(int(seq[i]) - 1)) + seq[i+1:]`.
On the binary alphabet this is Boolean negation at site `i`.  (Python raises
`IndexError` out of range; `List.set` is the identity there, and every call
site uses an in-range site.) -/
def Genotype.mutate1 (seq : Seq) (i : ℕ) : Seq :=
  seq.set i (!seq.getD i false)

/-- `Genotype.mutate(seq, site)`: flip the allele at each given site in
order.  The Python duck-typed single-`int` case is the singleton list. -/
def Genotype.mutate (seq : Seq) (site : List ℕ) : Seq :=
  site.foldl Genotype.mutate1 seq

/-- `Genotype.mutate_random`: flip one allele at `rnd.randint(0, len(seq))`,
a uniformly random site of `[0, L)` (the raw stream value reduced mod `L`). -/
def Genotype.mutate_random (seq : Seq) (g : Globals) : Seq × Globals :=
  let ni := g.rng.nextInt
  let site := ni.1 % seq.length
  (Genotype.mutate seq [site], { g with rng := ni.2 })

/-- `Genotype.dist`: Hamming distance.  The source asserts only
`type(seqA) == type(seqB)` (always true for two sequences) — there is no
length check — and counts differing positions over `zip(seqA, seqB)`,
which truncates to the shorter sequence. -/
def Genotype.dist (seqA seqB : Seq) : ℕ :=
  (seqA.zip seqB).countP (fun c => c.1 != c.2)

/-- Result record of `Genotype.get_diverged_sites`. -/
structure DivergedSites where
  seq1_alleles : List Bool
  seq2_alleles : List Bool
  sites : List ℕ
  deriving DecidableEq

/-- `Genotype.get_diverged_sites`: one pass over `range(L)` collecting, in
ascending order, the sites where the sequences differ and the alleles each
sequence carries there.  (The source asserts `len(seq2) == L`; callers in
scope guarantee it, and the claims below carry it as a hypothesis.) -/
def Genotype.get_diverged_sites (seq1 seq2 : Seq) : DivergedSites :=
  let ds := (List.range seq1.length).filter
    (fun i => seq1.getD i false != seq2.getD i false)
  { seq1_alleles := ds.map (fun i => seq1.getD i false)
    seq2_alleles := ds.map (fun i => seq2.getD i false)
    sites := ds }

/-- `Genotype.introgress`: for each diverged site (ascending), the recipient
with that single site flipped to the donor's allele.  (The source asserts
`len(donor) == L`, guarded exactly as in `get_diverged_sites`; the
`if len(diverged['sites']) > 0` guard is the vacuous empty-map case.) -/
def Genotype.introgress (recipient donor : Seq) : List Seq :=
  let diverged := Genotype.get_diverged_sites recipient donor
  diverged.sites.map (fun i => Genotype.mutate recipient [i])

/-- The loop of `Genotype.get_IIs`: for each introgressed sequence construct
a `Genotype` (an Oracle interaction); when it is inviable, record
`diverged['sites'][0] ↦ diverged['seq2_alleles'][0]` of
`get_diverged_sites(self.seq, i)` in the accumulator dict.  (`[0]` indexing
is modelled by `headD`; the diverged-site list of a single-site
introgression is provably a singleton, see `get_diverged_sites_mutate1`.) -/
def Genotype.get_IIs_loop (selfSeq : Seq) (p : ℚ) :
    List Seq → List (ℕ × Bool) → Globals → List (ℕ × Bool) × Globals
  | [], acc, g => (acc, g)
  | i :: rest, acc, g =>
    let mg := Genotype.init i p g
    if mg.1.viable then Genotype.get_IIs_loop selfSeq p rest acc mg.2
    else
      let diverged := Genotype.get_diverged_sites selfSeq i
      Genotype.get_IIs_loop selfSeq p rest
        (dictUpd acc (diverged.sites.headD 0) (diverged.seq2_alleles.headD false))
        mg.2

/-- `Genotype.get_IIs(self, donor)`: after the asserts
`self.p == donor.p`, `self.L == donor.L`, `self.viable`, `donor.viable`,
run the incompatible-introgression loop over
`introgress(self.seq, donor.seq)`. -/
def Genotype.get_IIs (self donor : Genotype) (g : Globals) :
    Except Err (List (ℕ × Bool) × Globals) :=
  if self.p = donor.p then
    if self.L = donor.L then
      if self.viable then
        if donor.viable then
          .ok (Genotype.get_IIs_loop self.seq self.p
                 (Genotype.introgress self.seq donor.seq) [] g)
        else .error .precondition
      else .error .precondition
    else .error .precondition
  else .error .precondition

/-- The loop of `Genotype.get_viable_neighbors`: for each site construct the
one-site mutant `Genotype` and collect the site if it is viable. -/
def Genotype.get_viable_neighbors_loop (seq : Seq) (p : ℚ) :
    List ℕ → Globals → List ℕ × Globals
  | [], g => ([], g)
  | i :: rest, g =>
    let mg := Genotype.init (Genotype.mutate seq [i]) p g
    let rg := Genotype.get_viable_neighbors_loop seq p rest mg.2
    (if mg.1.viable then i :: rg.1 else rg.1, rg.2)

/-- `Genotype.get_viable_neighbors`: the sites in `range(L)` whose one-site
mutant is viable. -/
def Genotype.get_viable_neighbors (gen : Genotype) (g : Globals) :
    List ℕ × Globals :=
  Genotype.get_viable_neighbors_loop gen.seq gen.p (List.range gen.L) g

/-- `Genotype.get_robustness`: memoized in `nu_dict`; on a miss,
`nu = len(viable_neighbors) / L` is computed and recorded.  (For `L = 0`
Python would raise `ZeroDivisionError`; rational division by zero yields 0
and no claim touches that case.) -/
def Genotype.get_robustness (gen : Genotype) (g : Globals) : ℚ × Globals :=
  match dictGet g.nu_dict gen.seq with
  | some nu => (nu, g)
  | none =>
    let vg := Genotype.get_viable_neighbors gen g
    let nu : ℚ := (vg.1.length : ℚ) / (gen.L : ℚ)
    (nu, { vg.2 with nu_dict := dictUpd vg.2.nu_dict gen.seq nu })

/-- One entry of a `Population` history: `{'seq': ..., 'dist': ..., 'nu': ...}`. -/
structure PopSnapshot where
  seq : Seq
  dist : ℕ
  nu : ℚ
  deriving DecidableEq

/-- A `Population` object.  `current.nu` of the source is carried as
`current_nu` (the robustness attribute set on the current genotype). -/
structure Population where
  ancestor : Genotype
  current : Genotype
  current_nu : ℚ
  p : ℚ
  n_steps : ℕ
  dist : ℕ
  history : List (ℕ × PopSnapshot)
  deriving DecidableEq

/-- `Population.__init__`: asserts `ancestor.viable`, computes the
ancestor's robustness, deep-copies the ancestor into `current`, and writes
the step-0 history entry. -/
def Population.init (ancestor : Genotype) (g : Globals) :
    Except Err (Population × Globals) :=
  if ancestor.viable then
    let rg := Genotype.get_robustness ancestor g
    .ok ({ ancestor := ancestor, current := ancestor, current_nu := rg.1,
           p := ancestor.p, n_steps := 0, dist := 0,
           history := [(0, ⟨ancestor.seq, 0, rg.1⟩)] }, rg.2)
  else .error .precondition

/-- The `while not found` loop of `Population.substitute`: draw a random
one-site mutant `Genotype`; if it is viable move to it; otherwise stop at
the current genotype when `blind`, else retry.  Fuel bounds the unbounded
myopic retries (`none` = fuel exhausted; with `blind = true` one unit of
fuel always suffices). -/
def Population.substitute_loop (p : ℚ) (cur : Genotype) (blind : Bool) :
    ℕ → Globals → Option (Genotype × Globals)
  | 0, _ => none
  | fuel + 1, g =>
    let mr := Genotype.mutate_random cur.seq g
    let mg := Genotype.init mr.1 p mr.2
    if mg.1.viable then some (mg.1, mg.2)
    else if blind then some (cur, mg.2)
    else Population.substitute_loop p cur blind fuel mg.2

/-- `Population.substitute`: run the attempt loop, recompute the (possibly
new) current genotype's robustness, increment `n_steps`, recompute `dist`
to the ancestor, and append the snapshot keyed by the new `n_steps`. -/
def Population.substitute (pop : Population) (blind : Bool) (fuel : ℕ)
    (g : Globals) : Option (Population × Globals) :=
  match Population.substitute_loop pop.p pop.current blind fuel g with
  | none => none
  | some (cur, g1) =>
    let rg := Genotype.get_robustness cur g1
    let n := pop.n_steps + 1
    let d := Genotype.dist cur.seq pop.ancestor.seq
    some ({ pop with
            current := cur
            current_nu := rg.1
            n_steps := n
            dist := d
            history := dictUpd pop.history n ⟨cur.seq, d, rg.1⟩ }, rg.2)

/-- The single mutation attempt of one `Population.substitute` iteration:
the `Genotype` object constructed from the randomly mutated current
sequence, together with the state after the Oracle lookup. -/
def blindMutant (pop : Population) (g : Globals) : Genotype × Globals :=
  Genotype.init (Genotype.mutate_random pop.current.seq g).1 pop.p
    (Genotype.mutate_random pop.current.seq g).2

/-- One entry of an `Orr` history. -/
structure OrrSnapshot where
  seq1 : Seq
  seq2 : Seq
  dist01 : ℕ
  dist02 : ℕ
  dist12 : ℕ
  II1 : List (ℕ × Bool)
  II2 : List (ℕ × Bool)
  nu1 : ℚ
  nu2 : ℚ
  deriving DecidableEq

/-- The divergence process (`Orr` object). -/
structure Orr where
  pop1 : Population
  pop2 : Population
  dist : ℕ
  II1 : List (ℕ × Bool)
  II2 : List (ℕ × Bool)
  p : ℚ
  n_steps : ℕ
  history : List (ℕ × OrrSnapshot)
  deriving DecidableEq

/-- The history snapshot written by `Orr.__init__` and `Orr.substitute`. -/
def Orr.snapshot (o : Orr) : OrrSnapshot :=
  ⟨o.pop1.current.seq, o.pop2.current.seq, o.pop1.dist, o.pop2.dist, o.dist,
   o.II1, o.II2, o.pop1.current_nu, o.pop2.current_nu⟩

/-- `Orr.__init__`: found `pop1` from the ancestor, deep-copy it into
`pop2`, start with distance 0, empty incompatibility dicts and the step-0
history entry. -/
def Orr.init (ancestor : Genotype) (g : Globals) : Except Err (Orr × Globals) :=
  match Population.init ancestor g with
  | .error e => .error e
  | .ok (pop1, g1) =>
    let o : Orr := { pop1 := pop1, pop2 := pop1, dist := 0, II1 := [], II2 := [],
                     p := ancestor.p, n_steps := 0, history := [] }
    .ok ({ o with history := [(0, o.snapshot)] }, g1)

/-- The first phase of `Orr.substitute`: draw `rnd.random()`; with
probability 0.5 substitute in `pop1`, otherwise in `pop2`. -/
def Orr.step_pop (o : Orr) (blind : Bool) (fuel : ℕ) (g : Globals) :
    Option (Orr × Globals) :=
  let fr := g.rng.nextFloat
  let g0 := { g with rng := fr.2 }
  if fr.1 < half then
    (Population.substitute o.pop1 blind fuel g0).map
      (fun x => ({ o with pop1 := x.1 }, x.2))
  else
    (Population.substitute o.pop2 blind fuel g0).map
      (fun x => ({ o with pop2 := x.1 }, x.2))

/-- `Orr.substitute`: substitute in a randomly chosen population, increment
`n_steps`, recompute the inter-population distance (`get_dist`), reset
`II1`/`II2` to empty, recompute them via `get_IIs` only when `dist > 1`,
and append the history snapshot keyed by the new `n_steps`.  An assert
failure inside `get_IIs` aborts (`none`), as does fuel exhaustion. -/
def Orr.substitute (o : Orr) (blind : Bool) (fuel : ℕ) (g : Globals) :
    Option (Orr × Globals) :=
  match Orr.step_pop o blind fuel g with
  | none => none
  | some (o1, g1) =>
    let o2 : Orr := { o1 with
      n_steps := o1.n_steps + 1
      dist := Genotype.dist o1.pop1.current.seq o1.pop2.current.seq
      II1 := []
      II2 := [] }
    if 1 < o2.dist then
      match Genotype.get_IIs o2.pop1.current o2.pop2.current g1 with
      | .error _ => none
      | .ok (ii1, g2) =>
        match Genotype.get_IIs o2.pop2.current o2.pop1.current g2 with
        | .error _ => none
        | .ok (ii2, g3) =>
          let o3 : Orr := { o2 with II1 := ii1, II2 := ii2 }
          some ({ o3 with
                  history := dictUpd o3.history o3.n_steps o3.snapshot }, g3)
    else
      some ({ o2 with
              history := dictUpd o2.history o2.n_steps o2.snapshot }, g1)

/-- A finite schedule of `Orr.substitute` calls (regime flag and fuel per
call), modelling an arbitrary driver loop. -/
def Orr.run : Orr → Globals → List (Bool × ℕ) → Option (Orr × Globals)
  | o, g, [] => some (o, g)
  | o, g, (blind, fuel) :: rest =>
    match Orr.substitute o blind fuel g with
    | none => none
    | some (o1, g1) => Orr.run o1 g1 rest

/-- Oracle evaluation of a list of sequences in program order: the viability
verdict of each, threading the shared state.  Used to state which
introgressions the Oracle deems inviable inside `get_IIs`. -/
def oracleEval (p : ℚ) : List Seq → Globals → List Bool × Globals
  | [], g => ([], g)
  | s :: rest, g =>
    let vg := Genotype.get_viability s p g
    let rg := oracleEval p rest vg.2
    (vg.1 :: rg.1, rg.2)

/-- Modelled from the spec (refinement comparison for claim C1): the spec's
`hamming_distance(a, b)` "requires equal length; counts differing positions;
fails with `LengthMismatchError` otherwise". -/
def hammingDistanceSpec (a b : Seq) : Except Err ℕ :=
  if a.length = b.length then
    .ok ((List.range a.length).countP (fun i => a.getD i false != b.getD i false))
  else .error .lengthMismatch

/-- `d2` preserves every entry of `d1`: nothing was removed, and no key's
value was overwritten with a different one. -/
def Submap {α β : Type} [DecidableEq α] (d1 d2 : List (α × β)) : Prop :=
  ∀ k v, dictGet d1 k = some v → dictGet d2 k = some v

section Demo

/-!
Concrete scenarios used to instantiate the theorems below.  `demoG` is a
fresh process state whose float stream is constantly `0` (every Bernoulli
draw succeeds, every coin toss picks `pop1`) and whose int stream is
constantly `0` (every random site is site 0).  `demoG2` has a constant
float stream `1`, so every Bernoulli draw with `p < 1` fails.
-/

/-- A random source drawing the constant float 0 and the constant int 0. -/
def demoRng : Rng := ⟨fun _ => 0, fun _ => 0⟩

/-- A fresh process state over `demoRng`. -/
def demoG : Globals := ⟨[], [], demoRng⟩

/-- A random source drawing the constant float 1 and the constant int 0. -/
def demoRng2 : Rng := ⟨fun _ => 1, fun _ => 0⟩

/-- A fresh process state over `demoRng2`. -/
def demoG2 : Globals := ⟨[], [], demoRng2⟩

/-- A length-2 viable ancestor on the `p = 1` landscape. -/
def demoAncestor : Genotype := ⟨[false, false], 1, true⟩

/-- Fallback value for extracting `Population.init` results. -/
def dfltPopG : Population × Globals :=
  (⟨demoAncestor, demoAncestor, 0, 1, 0, 0, []⟩, demoG)

/-- The population founded from `demoAncestor` on the fresh state. -/
def demoPop : Population :=
  ((Population.init demoAncestor demoG).toOption.getD dfltPopG).1

/-- The process state after founding `demoPop`. -/
def demoPopG : Globals :=
  ((Population.init demoAncestor demoG).toOption.getD dfltPopG).2

/-- Fallback value for extracting `Orr.init` and `Orr.substitute` results. -/
def dfltOrrG : Orr × Globals := (⟨demoPop, demoPop, 0, [], [], 1, 0, []⟩, demoG)

/-- The divergence process founded from `demoAncestor` on the fresh state. -/
def demoOrr : Orr :=
  ((Orr.init demoAncestor demoG).toOption.getD dfltOrrG).1

/-- The process state after founding `demoOrr`. -/
def demoOrrG : Globals :=
  ((Orr.init demoAncestor demoG).toOption.getD dfltOrrG).2

/-- One blind-ant step of `demoOrr`. -/
def demoStep : Orr × Globals :=
  (Orr.substitute demoOrr true 1 demoOrrG).getD dfltOrrG

/-- One blind-ant step of `demoPop` from the demo state. -/
def demoPopStep : Population × Globals :=
  (Population.substitute demoPop true 1 demoPopG).getD dfltPopG

/-- The phase-one (population-substitution) result of one blind-ant step of
`demoOrr`. -/
def demoStepPop : Orr × Globals :=
  (Orr.step_pop demoOrr true 1 demoOrrG).getD dfltOrrG

/-- A process state whose viability dict already holds one entry. -/
def demoGpre : Globals := ⟨[([true], true)], [], demoRng⟩

/-- A viable genotype (every introgression drawn on `demoG2` is inviable
since the draw `1 < 1` fails). -/
def demoSelf : Genotype := ⟨[false, false], 1, true⟩

/-- A viable donor two sites away from `demoSelf`, same `p`. -/
def demoDonor : Genotype := ⟨[true, true], 1, true⟩

end Demo

/-! ## Dictionary lemmas -/

theorem dictGet_append_left {α β : Type} [DecidableEq α] {d1 : List (α × β)}
    (d2 : List (α × β)) {k : α} {v : β} (h : dictGet d1 k = some v) :
    dictGet (d1 ++ d2) k = some v := by
  induction d1 with
  | nil => simp [dictGet] at h
  | cons kv rest ih =>
    obtain ⟨a, b⟩ := kv
    by_cases hk : k = a
    · simpa [dictGet, hk] using h
    · simp only [dictGet, hk, if_false] at h
      simpa [List.cons_append, dictGet, hk] using ih h

theorem dictGet_append_right {α β : Type} [DecidableEq α] {d1 : List (α × β)}
    (d2 : List (α × β)) {k : α} (h : dictGet d1 k = none) :
    dictGet (d1 ++ d2) k = dictGet d2 k := by
  induction d1 with
  | nil => simp
  | cons kv rest ih =>
    obtain ⟨a, b⟩ := kv
    by_cases hk : k = a
    · simp [dictGet, hk] at h
    · simp only [dictGet, hk, if_false] at h
      simpa [List.cons_append, dictGet, hk] using ih h

theorem dictUpd_fresh {α β : Type} [DecidableEq α] {d : List (α × β)} {k : α}
    (v : β) (h : dictGet d k = none) : dictUpd d k v = d ++ [(k, v)] := by
  simp [dictUpd, h]

theorem dictGet_cons {α β : Type} [DecidableEq α] (a : α) (b : β)
    (rest : List (α × β)) (k : α) :
    dictGet ((a, b) :: rest) k = if k = a then some b else dictGet rest k := rfl

theorem dictGet_overwrite {α β : Type} [DecidableEq α] (d : List (α × β))
    (k : α) (v : β) :
    dictGet (d.map fun kv => if kv.1 = k then (k, v) else kv) k =
      (dictGet d k).map (fun _ => v) := by
  induction d with
  | nil => simp [dictGet]
  | cons kv rest ih =>
    obtain ⟨a, b⟩ := kv
    rw [List.map_cons]
    by_cases ha : a = k
    · subst ha
      dsimp only
      rw [if_pos rfl, dictGet_cons, dictGet_cons, if_pos rfl, if_pos rfl]
      rfl
    · dsimp only
      have hk : ¬k = a := fun hh => ha hh.symm
      rw [if_neg ha, dictGet_cons, dictGet_cons, if_neg hk, if_neg hk]
      exact ih

theorem dictGet_overwrite_ne {α β : Type} [DecidableEq α] (d : List (α × β))
    {k k' : α} (v : β) (h : k' ≠ k) :
    dictGet (d.map fun kv => if kv.1 = k then (k, v) else kv) k' =
      dictGet d k' := by
  induction d with
  | nil => simp [dictGet]
  | cons kv rest ih =>
    obtain ⟨a, b⟩ := kv
    rw [List.map_cons]
    by_cases ha : a = k
    · subst ha
      dsimp only
      rw [if_pos rfl, dictGet_cons, dictGet_cons, if_neg h, if_neg h]
      exact ih
    · dsimp only
      rw [if_neg ha, dictGet_cons, dictGet_cons]
      by_cases hk' : k' = a
      · simp [hk']
      · rw [if_neg hk', if_neg hk']
        exact ih

theorem dictGet_dictUpd_self {α β : Type} [DecidableEq α] (d : List (α × β))
    (k : α) (v : β) : dictGet (dictUpd d k v) k = some v := by
  unfold dictUpd
  cases hd : dictGet d k with
  | some w => simp [hd, dictGet_overwrite]
  | none =>
    rw [if_neg (by simp [hd])]
    rw [dictGet_append_right _ hd]
    simp [dictGet]

theorem dictGet_dictUpd_ne {α β : Type} [DecidableEq α] (d : List (α × β))
    {k k' : α} (v : β) (h : k' ≠ k) :
    dictGet (dictUpd d k v) k' = dictGet d k' := by
  unfold dictUpd
  cases hd : dictGet d k with
  | some w => simp [hd, dictGet_overwrite_ne _ _ h]
  | none =>
    rw [if_neg (by simp [hd])]
    cases hk' : dictGet d k' with
    | some w => exact dictGet_append_left _ hk'
    | none => rw [dictGet_append_right _ hk']; simp [dictGet, h]

theorem Submap.rfl {α β : Type} [DecidableEq α] {d : List (α × β)} :
    Submap d d := fun _ _ h => h

theorem Submap.trans {α β : Type} [DecidableEq α]
    {d1 d2 d3 : List (α × β)} (h12 : Submap d1 d2) (h23 : Submap d2 d3) :
    Submap d1 d3 := fun k v h => h23 k v (h12 k v h)

theorem submap_dictUpd_of_none {α β : Type} [DecidableEq α]
    {d : List (α × β)} {k : α} (v : β) (h : dictGet d k = none) :
    Submap d (dictUpd d k v) := by
  intro k' v' h'
  rcases eq_or_ne k' k with rfl | hne
  · rw [h'] at h; cases h
  · rw [dictGet_dictUpd_ne _ _ hne]; exact h'

/-! ## Sequence lemmas -/

theorem getD_set_self {l : Seq} {i : ℕ} (a : Bool) (h : i < l.length) :
    (l.set i a).getD i false = a := by
  rw [List.getD_eq_getElem?_getD, List.getElem?_set_self h]; rfl

theorem getD_set_ne (l : Seq) {i j : ℕ} (a : Bool) (h : j ≠ i) :
    (l.set i a).getD j false = l.getD j false := by
  rw [List.getD_eq_getElem?_getD, List.getElem?_set_ne (Ne.symm h),
    ← List.getD_eq_getElem?_getD]

theorem set_getD_self : ∀ (l : Seq) (i : ℕ), i < l.length →
    l.set i (l.getD i false) = l
  | [], i, h => absurd h (by simp)
  | _ :: _, 0, _ => rfl
  | x :: l, i + 1, h => by
    have := set_getD_self l i (by simpa using h)
    simp only [List.getD_cons_succ, List.set_cons_succ]
    rw [this]

theorem mutate_singleton (s : Seq) (i : ℕ) :
    Genotype.mutate s [i] = s.set i (!s.getD i false) := rfl

theorem length_mutate_singleton (s : Seq) (i : ℕ) :
    (Genotype.mutate s [i]).length = s.length := by
  rw [mutate_singleton, List.length_set]

/-- Claim C8: for every binary sequence `s` and site `i < L`,
`mutate(s, i)` flips exactly the allele at site `i`, leaves every other
position unchanged, preserves the length, and is an involution:
`mutate(mutate(s, i), i) = s`. -/
theorem claim_C8 (s : Seq) (i : ℕ) (h : i < s.length) :
    (Genotype.mutate s [i]).getD i false = !(s.getD i false) ∧
    (∀ j, j ≠ i → (Genotype.mutate s [i]).getD j false = s.getD j false) ∧
    (Genotype.mutate s [i]).length = s.length ∧
    Genotype.mutate (Genotype.mutate s [i]) [i] = s := by
  refine ⟨?_, ?_, length_mutate_singleton s i, ?_⟩
  · rw [mutate_singleton]; exact getD_set_self _ h
  · intro j hj; rw [mutate_singleton]; exact getD_set_ne _ _ hj
  · rw [mutate_singleton, mutate_singleton]
    rw [getD_set_self _ (by simpa using h), Bool.not_not, List.set_set]
    exact set_getD_self s i h

/-- Claim C8 witness: the involution instantiated on a concrete sequence. -/
theorem claim_C8_witness :
    Genotype.mutate (Genotype.mutate [false, true] [0]) [0] = [false, true] :=
  (claim_C8 [false, true] 0 (by decide)).2.2.2

/-! ## Hamming distance (claim C1) -/

theorem dist_nil_right (a : Seq) : Genotype.dist a [] = 0 := by
  simp [Genotype.dist]

theorem dist_cons (x y : Bool) (a b : Seq) :
    Genotype.dist (x :: a) (y :: b) =
      Genotype.dist a b + (if x != y then 1 else 0) := by
  simp [Genotype.dist, List.countP_cons]

/-- `dist` truncates to the shorter sequence: it is the number of positions
below `min |a| |b|` at which the sequences differ. -/
theorem dist_eq_countP_range_min (a : Seq) : ∀ b : Seq,
    Genotype.dist a b =
      (List.range (min a.length b.length)).countP
        (fun i => a.getD i false != b.getD i false) := by
  induction a with
  | nil => intro b; simp [Genotype.dist]
  | cons x a ih =>
    intro b
    cases b with
    | nil => simp [dist_nil_right]
    | cons y b =>
      rw [dist_cons]
      have hmin : min (x :: a).length (y :: b).length = min a.length b.length + 1 := by
        simp [List.length_cons, Nat.succ_min_succ]
      rw [hmin, List.range_succ_eq_map, List.countP_cons, List.countP_map]
      simp only [Function.comp, List.getD_cons_succ, List.getD_cons_zero]
      rw [ih b]
      congr 1

/-- Claim C1, counterexample: `Genotype.dist` performs no length check —
on the unequal-length pair `('0', '00')` the spec-modelled
`hamming_distance` fails with `LengthMismatchError` while the code returns
the value 0. -/
theorem claim_C1_counterexample :
    ([false] : Seq).length ≠ ([false, false] : Seq).length ∧
    hammingDistanceSpec [false] [false, false] = .error .lengthMismatch ∧
    Genotype.dist [false] [false, false] = 0 :=
  ⟨by decide, rfl, rfl⟩

/-- Claim C1 (amended): the Hamming-distance operation never fails; for any
two sequences it returns the number of positions, among the first
`min |a| |b|` positions, at which they differ — in particular, for
equal-length sequences, the number of positions at which they differ. -/
theorem claim_C1_amended (a b : Seq) :
    Genotype.dist a b =
      (List.range (min a.length b.length)).countP
        (fun i => a.getD i false != b.getD i false) :=
  dist_eq_countP_range_min a b

/-! ## Diverged sites and introgression (claim C7) -/

theorem sites_def (a b : Seq) :
    (Genotype.get_diverged_sites a b).sites =
      (List.range a.length).filter
        (fun i => a.getD i false != b.getD i false) := rfl

theorem sites_pairwise (a b : Seq) :
    List.Pairwise (fun i j => i < j) (Genotype.get_diverged_sites a b).sites :=
  (List.pairwise_lt_range _).filter _

theorem mem_sites {a b : Seq} {i : ℕ}
    (h : i ∈ (Genotype.get_diverged_sites a b).sites) :
    i < a.length ∧ a.getD i false ≠ b.getD i false := by
  rw [sites_def] at h
  rcases List.mem_filter.mp h with ⟨h1, h2⟩
  exact ⟨List.mem_range.mp h1, bne_iff_ne.mp h2⟩

theorem sites_length (a b : Seq) (h : a.length = b.length) :
    (Genotype.get_diverged_sites a b).sites.length = Genotype.dist a b := by
  rw [sites_def, ← List.countP_eq_length_filter, dist_eq_countP_range_min, h,
    min_self]

theorem introgress_eq (r d : Seq) :
    Genotype.introgress r d =
      (Genotype.get_diverged_sites r d).sites.map
        (fun i => Genotype.mutate r [i]) := rfl

/-- Claim C7: for equal-length sequences, `introgress` returns exactly
`hamming_distance(r, d)` sequences — one per diverged site, in ascending
site order — each equal to the recipient with just that diverged site
replaced by the donor's allele; the empty list for identical sequences;
and the concrete doctest `introgress('00000', '01110')`. -/
theorem claim_C7 :
    (∀ r d : Seq, r.length = d.length →
      (Genotype.introgress r d).length = Genotype.dist r d ∧
      Genotype.introgress r d =
        (Genotype.get_diverged_sites r d).sites.map
          (fun i => r.set i (d.getD i false)) ∧
      List.Pairwise (fun i j => i < j) (Genotype.get_diverged_sites r d).sites ∧
      (r = d → Genotype.introgress r d = [])) ∧
    Genotype.introgress [false, false, false, false, false]
        [false, true, true, true, false] =
      [[false, true, false, false, false],
       [false, false, true, false, false],
       [false, false, false, true, false]] := by
  constructor
  · intro r d h
    refine ⟨?_, ?_, sites_pairwise r d, ?_⟩
    · rw [introgress_eq, List.length_map, sites_length r d h]
    · rw [introgress_eq]
      apply List.map_congr_left
      intro i hi
      rcases mem_sites hi with ⟨_, hne⟩
      rw [mutate_singleton]
      congr 1
      cases hr : r.getD i false <;> cases hd2 : d.getD i false <;> simp_all
    · intro he; subst he
      rw [introgress_eq, sites_def]
      simp
  · decide

/-- Claim C7 witness: the count property instantiated on a concrete pair. -/
theorem claim_C7_witness :
    (Genotype.introgress [false, true] [true, true]).length =
      Genotype.dist [false, true] [true, true] :=
  (claim_C7.1 [false, true] [true, true] (by decide)).1

/-! ## The Viability Oracle (claims C3 and C4) -/

theorem get_viability_of_mem {s : Seq} {g : Globals} {b : Bool} (p : ℚ)
    (h : dictGet g.viability_dict s = some b) :
    Genotype.get_viability s p g = (b, g) := by
  unfold Genotype.get_viability
  rw [h]

theorem get_viability_of_fresh {s : Seq} {g : Globals} (p : ℚ)
    (h : dictGet g.viability_dict s = none) :
    Genotype.get_viability s p g =
      (if g.rng.floats 0 < p then true else false,
       { g with
         viability_dict := dictUpd g.viability_dict s
           (if g.rng.floats 0 < p then true else false)
         rng := g.rng.nextFloat.2 }) := by
  unfold Genotype.get_viability
  rw [h]
  rfl

theorem dictGet_get_viability_self (s : Seq) (p : ℚ) (g : Globals) :
    dictGet (Genotype.get_viability s p g).2.viability_dict s =
      some (Genotype.get_viability s p g).1 := by
  cases hd : dictGet g.viability_dict s with
  | some b => rw [get_viability_of_mem p hd]; exact hd
  | none => rw [get_viability_of_fresh p hd]; exact dictGet_dictUpd_self _ _ _

theorem submap_get_viability (s : Seq) (p : ℚ) (g : Globals) :
    Submap g.viability_dict (Genotype.get_viability s p g).2.viability_dict := by
  cases hd : dictGet g.viability_dict s with
  | some b => rw [get_viability_of_mem p hd]; exact Submap.rfl
  | none => rw [get_viability_of_fresh p hd]; exact submap_dictUpd_of_none _ hd

/-- Claim C3: the first viability lookup on a fresh sequence draws the
Bernoulli(p) outcome `rand < p` from the shared float stream and records it
in the shared mapping; a lookup on a recorded sequence returns the recorded
outcome with the state untouched; and a second lookup on the same sequence
— with any `p'` — returns exactly the first lookup's result and changes
nothing. -/
theorem claim_C3 (s : Seq) (p p' : ℚ) (g : Globals) :
    (dictGet g.viability_dict s = none →
      Genotype.get_viability s p g =
        (if g.rng.floats 0 < p then true else false,
         { g with
           viability_dict := dictUpd g.viability_dict s
             (if g.rng.floats 0 < p then true else false)
           rng := g.rng.nextFloat.2 })) ∧
    (∀ b, dictGet g.viability_dict s = some b →
      Genotype.get_viability s p g = (b, g)) ∧
    Genotype.get_viability s p' (Genotype.get_viability s p g).2 =
      ((Genotype.get_viability s p g).1, (Genotype.get_viability s p g).2) := by
  refine ⟨fun h => get_viability_of_fresh p h, fun b h => get_viability_of_mem p h, ?_⟩
  exact get_viability_of_mem p' (dictGet_get_viability_self s p g)

/-- Claim C3 witness: on the constant-1 float stream with `p = 1` the
first lookup of `'1'` records `False` (the draw `1 < 1` fails); a second
lookup with `p' = 0` returns the recorded `False` and leaves the state
unchanged. -/
theorem claim_C3_witness :
    Genotype.get_viability [true] 0 (Genotype.get_viability [true] 1 demoG2).2 =
      (false, (Genotype.get_viability [true] 1 demoG2).2) :=
  (claim_C3 [true] 0 0 (Genotype.get_viability [true] 1 demoG2).2).2.1 false
    (by decide)

theorem submap_init (s : Seq) (p : ℚ) (g : Globals) :
    Submap g.viability_dict (Genotype.init s p g).2.viability_dict :=
  submap_get_viability s p g

theorem init_of_mem {s : Seq} {g : Globals} {b : Bool} (p : ℚ)
    (h : dictGet g.viability_dict s = some b) :
    Genotype.init s p g = (⟨s, p, b⟩, g) := by
  unfold Genotype.init
  rw [get_viability_of_mem p h]

theorem submap_get_viable_neighbors_loop (seq : Seq) (p : ℚ) :
    ∀ (l : List ℕ) (g : Globals),
      Submap g.viability_dict
        (Genotype.get_viable_neighbors_loop seq p l g).2.viability_dict
  | [], _ => Submap.rfl
  | i :: rest, g => by
    show Submap g.viability_dict
      (Genotype.get_viable_neighbors_loop seq p rest
        (Genotype.init (Genotype.mutate seq [i]) p g).2).2.viability_dict
    exact (submap_init _ p g).trans
      (submap_get_viable_neighbors_loop seq p rest _)

theorem submap_get_robustness (gen : Genotype) (g : Globals) :
    Submap g.viability_dict (Genotype.get_robustness gen g).2.viability_dict := by
  unfold Genotype.get_robustness
  cases hd : dictGet g.nu_dict gen.seq with
  | some nu => exact Submap.rfl
  | none =>
    exact submap_get_viable_neighbors_loop gen.seq gen.p (List.range gen.L) g

theorem submap_substitute_loop (p : ℚ) (cur : Genotype) (blind : Bool) :
    ∀ (fuel : ℕ) (g : Globals) (res : Genotype × Globals),
      Population.substitute_loop p cur blind fuel g = some res →
      Submap g.viability_dict res.2.viability_dict := by
  intro fuel
  induction fuel with
  | zero => intro g res h; cases h
  | succ fuel ih =>
    intro g res h
    unfold Population.substitute_loop at h
    set mg := Genotype.init (Genotype.mutate_random cur.seq g).1 p
      (Genotype.mutate_random cur.seq g).2 with hmg
    have hsub : Submap g.viability_dict mg.2.viability_dict :=
      submap_init (Genotype.mutate_random cur.seq g).1 p
        (Genotype.mutate_random cur.seq g).2
    by_cases hv : mg.1.viable
    · rw [if_pos hv] at h
      cases h
      exact hsub
    · rw [if_neg hv] at h
      by_cases hb : blind = true
      · rw [if_pos hb] at h
        cases h
        exact hsub
      · rw [if_neg hb] at h
        exact hsub.trans (ih mg.2 res h)

theorem submap_population_substitute (pop : Population) (blind : Bool)
    (fuel : ℕ) (g : Globals) (pop' : Population) (g' : Globals)
    (h : Population.substitute pop blind fuel g = some (pop', g')) :
    Submap g.viability_dict g'.viability_dict := by
  unfold Population.substitute at h
  cases hl : Population.substitute_loop pop.p pop.current blind fuel g with
  | none => rw [hl] at h; cases h
  | some res =>
    rw [hl] at h
    obtain ⟨cur, g1⟩ := res
    cases h
    exact (submap_substitute_loop pop.p pop.current blind fuel g _ hl).trans
      (submap_get_robustness cur g1)

theorem submap_get_IIs_loop (selfSeq : Seq) (p : ℚ) :
    ∀ (l : List Seq) (acc : List (ℕ × Bool)) (g : Globals),
      Submap g.viability_dict
        (Genotype.get_IIs_loop selfSeq p l acc g).2.viability_dict
  | [], _, _ => Submap.rfl
  | i :: rest, acc, g => by
    show Submap g.viability_dict
      (if (Genotype.init i p g).1.viable then
          Genotype.get_IIs_loop selfSeq p rest acc (Genotype.init i p g).2
        else
          Genotype.get_IIs_loop selfSeq p rest
            (dictUpd acc
              ((Genotype.get_diverged_sites selfSeq i).sites.headD 0)
              ((Genotype.get_diverged_sites selfSeq i).seq2_alleles.headD false))
            (Genotype.init i p g).2).2.viability_dict
    by_cases hv : (Genotype.init i p g).1.viable
    · rw [if_pos hv]
      exact (submap_init _ p g).trans (submap_get_IIs_loop selfSeq p rest _ _)
    · rw [if_neg hv]
      exact (submap_init _ p g).trans (submap_get_IIs_loop selfSeq p rest _ _)

theorem submap_get_IIs (self donor : Genotype) (g : Globals)
    (r : List (ℕ × Bool)) (g' : Globals)
    (h : Genotype.get_IIs self donor g = .ok (r, g')) :
    Submap g.viability_dict g'.viability_dict := by
  unfold Genotype.get_IIs at h
  by_cases h1 : self.p = donor.p
  · rw [if_pos h1] at h
    by_cases h2 : self.L = donor.L
    · rw [if_pos h2] at h
      by_cases h3 : self.viable = true
      · rw [if_pos h3] at h
        by_cases h4 : donor.viable = true
        · rw [if_pos h4] at h
          injection h with h5
          have hs := submap_get_IIs_loop self.seq self.p
            (Genotype.introgress self.seq donor.seq) [] g
          rw [h5] at hs
          exact hs
        · rw [if_neg h4] at h; cases h
      · rw [if_neg h3] at h; cases h
    · rw [if_neg h2] at h; cases h
  · rw [if_neg h1] at h; cases h

theorem submap_orr_substitute (o : Orr) (blind : Bool) (fuel : ℕ)
    (g : Globals) (o' : Orr) (g' : Globals)
    (h : Orr.substitute o blind fuel g = some (o', g')) :
    Submap g.viability_dict g'.viability_dict := by
  unfold Orr.substitute at h
  cases hs : Orr.step_pop o blind fuel g with
  | none => rw [hs] at h; cases h
  | some res =>
    rw [hs] at h
    obtain ⟨o1, g1⟩ := res
    have hsub1 : Submap g.viability_dict g1.viability_dict := by
      unfold Orr.step_pop at hs
      by_cases hc : g.rng.nextFloat.1 < half
      · rw [if_pos hc] at hs
        cases hp : Population.substitute o.pop1 blind fuel
            { g with rng := g.rng.nextFloat.2 } with
        | none => rw [hp] at hs; cases hs
        | some pres =>
          rw [hp] at hs
          obtain ⟨p1, gp⟩ := pres
          cases hs
          exact submap_population_substitute o.pop1 blind fuel
            { g with rng := g.rng.nextFloat.2 } p1 gp hp
      · rw [if_neg hc] at hs
        cases hp : Population.substitute o.pop2 blind fuel
            { g with rng := g.rng.nextFloat.2 } with
        | none => rw [hp] at hs; cases hs
        | some pres =>
          rw [hp] at hs
          obtain ⟨p2, gp⟩ := pres
          cases hs
          exact submap_population_substitute o.pop2 blind fuel
            { g with rng := g.rng.nextFloat.2 } p2 gp hp
    dsimp only at h
    by_cases hdist : 1 < Genotype.dist o1.pop1.current.seq o1.pop2.current.seq
    · rw [if_pos hdist] at h
      cases hii1 : Genotype.get_IIs o1.pop1.current o1.pop2.current g1 with
      | error e => rw [hii1] at h; cases h
      | ok res1 =>
        rw [hii1] at h
        obtain ⟨ii1, g2⟩ := res1
        dsimp only at h
        cases hii2 : Genotype.get_IIs o1.pop2.current o1.pop1.current g2 with
        | error e => rw [hii2] at h; cases h
        | ok res2 =>
          rw [hii2] at h
          obtain ⟨ii2, g3⟩ := res2
          dsimp only at h
          cases h
          exact (hsub1.trans (submap_get_IIs _ _ _ _ _ hii1)).trans
            (submap_get_IIs _ _ _ _ _ hii2)
    · rw [if_neg hdist] at h
      cases h
      exact hsub1

/-- Claim C4, counterexample: after a first viability lookup of `'0'` (on
the constant-1 float stream, where the Bernoulli draw `1 < p` fails)
records `False`, forcing the same sequence viable (`make_viable`)
overwrites the recorded entry with `True` — the mapping is not append-only
across every operation. -/
theorem claim_C4_counterexample :
    dictGet (Genotype.init [false] 1 demoG2).2.viability_dict [false] =
      some false ∧
    dictGet (Genotype.make_viable [false] 1
        (Genotype.init [false] 1 demoG2).2).2.viability_dict [false] =
      some true := by
  constructor
  · rfl
  · rfl

/-- Claim C4 (amended): every operation of the system except forcing a
genotype viable — viability lookup, robustness computation, population
substitution, divergence stepping — preserves every entry of the
sequence-to-viability mapping (nothing removed, nothing overwritten);
`make_viable s` preserves every entry as well except that it may overwrite
the entry of `s` itself, and only from `False` to `True`. -/
theorem claim_C4_amended :
    (∀ (s : Seq) (p : ℚ) (g : Globals),
      Submap g.viability_dict (Genotype.get_viability s p g).2.viability_dict) ∧
    (∀ (s : Seq) (p : ℚ) (g : Globals) (k : Seq) (v : Bool),
      dictGet g.viability_dict k = some v →
      dictGet (Genotype.make_viable s p g).2.viability_dict k = some v ∨
      (k = s ∧ v = false ∧
        dictGet (Genotype.make_viable s p g).2.viability_dict k = some true)) ∧
    (∀ (gen : Genotype) (g : Globals),
      Submap g.viability_dict (Genotype.get_robustness gen g).2.viability_dict) ∧
    (∀ (pop : Population) (blind : Bool) (fuel : ℕ) (g : Globals)
      (pop' : Population) (g' : Globals),
      Population.substitute pop blind fuel g = some (pop', g') →
      Submap g.viability_dict g'.viability_dict) ∧
    (∀ (o : Orr) (blind : Bool) (fuel : ℕ) (g : Globals) (o' : Orr)
      (g' : Globals),
      Orr.substitute o blind fuel g = some (o', g') →
      Submap g.viability_dict g'.viability_dict) := by
  refine ⟨submap_get_viability, ?_, submap_get_robustness,
    submap_population_substitute, submap_orr_substitute⟩
  intro s p g k v hk
  unfold Genotype.make_viable
  by_cases hv : (Genotype.init s p g).1.viable = true
  · rw [if_pos hv]
    exact Or.inl (submap_init s p g k v hk)
  · rw [if_neg hv]
    rcases eq_or_ne k s with rfl | hne
    · right
      refine ⟨rfl, ?_, ?_⟩
      · have hinit := init_of_mem (b := v) p hk
        rw [hinit] at hv
        cases v with
        | false => rfl
        | true => exact absurd rfl hv
      · exact dictGet_dictUpd_self _ _ _
    · left
      rw [dictGet_dictUpd_ne _ _ hne]
      exact submap_init s p g k v hk

/-- Claim C4 witness: growth of the mapping through a fresh lookup
preserves a pre-existing entry. -/
theorem claim_C4_witness :
    dictGet (Genotype.get_viability [false] 1 demoGpre).2.viability_dict
      [true] = some true :=
  claim_C4_amended.1 [false] 1 demoGpre [true] true rfl

/-! ## Incompatible introgressions (claim C2) -/

theorem half_eq_one_div_two : half = 1 / 2 := by
  show Rat.mk' 1 2 = 1 / 2
  rw [Rat.mk'_eq_divInt, Rat.divInt_eq_div]
  norm_num

theorem filter_beq_range {i n : ℕ} (h : i < n) :
    (List.range n).filter (fun j => j == i) = [i] := by
  induction n with
  | zero => omega
  | succ n ih =>
    rw [List.range_succ, List.filter_append]
    rcases eq_or_ne i n with rfl | hne
    · have h1 : (List.range i).filter (fun j => j == i) = [] := by
        rw [List.filter_eq_nil_iff]
        intro a ha
        have := List.mem_range.mp ha
        simp
        omega
      rw [h1]
      simp
    · have h2 : i < n := by omega
      rw [ih h2]
      have hni : ((n : ℕ) == i) = false := by
        simp [Ne.symm hne]
      simp [List.filter, hni]

theorem bool_not_eq_of_ne {x y : Bool} (h : x ≠ y) : (!x) = y := by
  cases x <;> cases y <;> simp_all

/-- The diverged sites between a sequence and its one-site mutant: exactly
the mutated site, carrying the original and the flipped allele. -/
theorem get_diverged_sites_mutate1 (s : Seq) (i : ℕ) (h : i < s.length) :
    Genotype.get_diverged_sites s (Genotype.mutate s [i]) =
      ⟨[s.getD i false], [!(s.getD i false)], [i]⟩ := by
  have hpred : ∀ j ∈ List.range s.length,
      (s.getD j false != (Genotype.mutate s [i]).getD j false) = (j == i) := by
    intro j _
    rcases eq_or_ne j i with rfl | hne
    · rw [mutate_singleton, getD_set_self _ h]
      simp
    · rw [mutate_singleton, getD_set_ne _ _ hne]
      simp [hne]
  have hds : (List.range s.length).filter
      (fun j => s.getD j false != (Genotype.mutate s [i]).getD j false) = [i] := by
    rw [List.filter_congr hpred]
    exact filter_beq_range h
  unfold Genotype.get_diverged_sites
  rw [hds]
  simp only [List.map_cons, List.map_nil, mutate_singleton]
  rw [getD_set_self _ h]

theorem get_IIs_loop_cons (s : Seq) (p : ℚ) (m : Seq) (rest : List Seq)
    (acc : List (ℕ × Bool)) (g : Globals) :
    Genotype.get_IIs_loop s p (m :: rest) acc g =
      (if (Genotype.init m p g).1.viable then
        Genotype.get_IIs_loop s p rest acc (Genotype.init m p g).2
      else
        Genotype.get_IIs_loop s p rest
          (dictUpd acc ((Genotype.get_diverged_sites s m).sites.headD 0)
            ((Genotype.get_diverged_sites s m).seq2_alleles.headD false))
          (Genotype.init m p g).2) := rfl

theorem oracleEval_cons (p : ℚ) (s : Seq) (rest : List Seq) (g : Globals) :
    oracleEval p (s :: rest) g =
      ((Genotype.get_viability s p g).1 ::
         (oracleEval p rest (Genotype.get_viability s p g).2).1,
       (oracleEval p rest (Genotype.get_viability s p g).2).2) := rfl

theorem init_viable_fst (s : Seq) (p : ℚ) (g : Globals) :
    (Genotype.init s p g).1.viable = (Genotype.get_viability s p g).1 := rfl

theorem init_snd (s : Seq) (p : ℚ) (g : Globals) :
    (Genotype.init s p g).2 = (Genotype.get_viability s p g).2 := rfl

/-- The recording loop of `get_IIs`, over the single-site introgressions of
a list of diverged sites: it returns the accumulator extended with one
entry `(site, donor allele at site)` per introgression that the Oracle
deems inviable, in site order, and the state left by the Oracle lookups. -/
theorem get_IIs_loop_eq (s d : Seq) (p : ℚ) :
    ∀ (sites : List ℕ) (acc : List (ℕ × Bool)) (g : Globals),
      (∀ i ∈ sites, i < s.length) →
      (∀ i ∈ sites, s.getD i false ≠ d.getD i false) →
      (∀ i ∈ sites, dictGet acc i = none) →
      sites.Nodup →
      Genotype.get_IIs_loop s p (sites.map fun i => Genotype.mutate s [i]) acc g =
        (acc ++
          ((sites.zip
              (oracleEval p (sites.map fun i => Genotype.mutate s [i]) g).1).filter
            (fun x => !x.2)).map (fun x => (x.1, d.getD x.1 false)),
         (oracleEval p (sites.map fun i => Genotype.mutate s [i]) g).2) := by
  intro sites
  induction sites with
  | nil =>
    intro acc g _ _ _ _
    simp [Genotype.get_IIs_loop, oracleEval]
  | cons i rest ih =>
    intro acc g hlt hdiv hfresh hnodup
    have hi : i < s.length := hlt i (by simp)
    have hlt' : ∀ j ∈ rest, j < s.length := fun j hj => hlt j (by simp [hj])
    have hdiv' : ∀ j ∈ rest, s.getD j false ≠ d.getD j false :=
      fun j hj => hdiv j (by simp [hj])
    have hmem : i ∉ rest := (List.nodup_cons.mp hnodup).1
    have hnodup' : rest.Nodup := (List.nodup_cons.mp hnodup).2
    rw [List.map_cons, get_IIs_loop_cons, oracleEval_cons, init_viable_fst,
      init_snd]
    by_cases hvb : (Genotype.get_viability (Genotype.mutate s [i]) p g).1 = true
    · rw [if_pos hvb,
        ih acc _ hlt' hdiv' (fun j hj => hfresh j (by simp [hj])) hnodup']
      rw [List.zip_cons_cons, List.filter_cons]
      rw [hvb]
      simp
    · rw [if_neg hvb]
      have hvb' : (Genotype.get_viability (Genotype.mutate s [i]) p g).1 = false :=
        by cases hvv : (Genotype.get_viability (Genotype.mutate s [i]) p g).1
           · rfl
           · exact absurd hvv hvb
      rw [get_diverged_sites_mutate1 s i hi]
      have hval : (!(s.getD i false)) = d.getD i false :=
        bool_not_eq_of_ne (hdiv i (by simp))
      have hupd : dictUpd acc ([i].headD 0)
          (([!(s.getD i false)].headD false)) = acc ++ [(i, d.getD i false)] := by
        rw [List.headD_cons, List.headD_cons, hval]
        exact dictUpd_fresh _ (hfresh i (by simp))
      rw [hupd]
      have hfresh' : ∀ j ∈ rest, dictGet (acc ++ [(i, d.getD i false)]) j = none := by
        intro j hj
        rw [dictGet_append_right _ (hfresh j (by simp [hj]))]
        have hji : ¬j = i := fun he => hmem (he ▸ hj)
        simp [dictGet, hji]
      rw [ih (acc ++ [(i, d.getD i false)]) _ hlt' hdiv' hfresh' hnodup']
      rw [List.zip_cons_cons, List.filter_cons]
      rw [hvb']
      simp

/-- Claim C2: `get_IIs` fails with `PreconditionError` whenever the `p`
values differ, the lengths differ, or either genotype is inviable; under
the preconditions it returns exactly the mapping that sends each
single-site introgression the Oracle deems inviable to the pair
(introgressed site, donor's allele at that site) — and contains nothing
else — together with the state left by the Oracle lookups. -/
theorem claim_C2 (self donor : Genotype) (g : Globals) :
    (¬(self.p = donor.p ∧ self.L = donor.L ∧ self.viable = true ∧
        donor.viable = true) →
      Genotype.get_IIs self donor g = .error .precondition) ∧
    (self.p = donor.p → self.L = donor.L → self.viable = true →
      donor.viable = true →
      Genotype.get_IIs self donor g =
        .ok ((((Genotype.get_diverged_sites self.seq donor.seq).sites.zip
                (oracleEval self.p
                  (Genotype.introgress self.seq donor.seq) g).1).filter
              (fun x => !x.2)).map
            (fun x => (x.1, donor.seq.getD x.1 false)),
          (oracleEval self.p (Genotype.introgress self.seq donor.seq) g).2)) := by
  constructor
  · intro hnot
    unfold Genotype.get_IIs
    by_cases h1 : self.p = donor.p
    · rw [if_pos h1]
      by_cases h2 : self.L = donor.L
      · rw [if_pos h2]
        by_cases h3 : self.viable = true
        · rw [if_pos h3]
          by_cases h4 : donor.viable = true
          · exact absurd ⟨h1, h2, h3, h4⟩ hnot
          · rw [if_neg h4]
        · rw [if_neg h3]
      · rw [if_neg h2]
    · rw [if_neg h1]
  · intro h1 h2 h3 h4
    unfold Genotype.get_IIs
    rw [if_pos h1, if_pos h2, if_pos h3, if_pos h4]
    have hsites : ∀ i ∈ (Genotype.get_diverged_sites self.seq donor.seq).sites,
        i < self.seq.length ∧ self.seq.getD i false ≠ donor.seq.getD i false :=
      fun i hi => mem_sites hi
    have hnodup : (Genotype.get_diverged_sites self.seq donor.seq).sites.Nodup :=
      (sites_pairwise self.seq donor.seq).imp (fun hab => Nat.ne_of_lt hab)
    rw [introgress_eq]
    rw [get_IIs_loop_eq self.seq donor.seq self.p
      (Genotype.get_diverged_sites self.seq donor.seq).sites [] g
      (fun i hi => (hsites i hi).1) (fun i hi => (hsites i hi).2)
      (fun i _ => rfl) hnodup]
    rw [List.nil_append]

/-- Claim C2 witness: a donor two diverged sites away on the constant-1
float stream — both introgressions are drawn inviable and both sites are
recorded with the donor's allele. -/
theorem claim_C2_witness :
    Genotype.get_IIs demoSelf demoDonor demoG2 =
      .ok ((((Genotype.get_diverged_sites demoSelf.seq demoDonor.seq).sites.zip
              (oracleEval demoSelf.p
                (Genotype.introgress demoSelf.seq demoDonor.seq) demoG2).1).filter
            (fun x => !x.2)).map
          (fun x => (x.1, demoDonor.seq.getD x.1 false)),
        (oracleEval demoSelf.p
          (Genotype.introgress demoSelf.seq demoDonor.seq) demoG2).2) :=
  (claim_C2 demoSelf demoDonor demoG2).2 rfl rfl rfl rfl

/-! ## Blind-ant substitution (claim C6) -/

theorem rng_ints_get_viability (s : Seq) (p : ℚ) (g : Globals) :
    (Genotype.get_viability s p g).2.rng.ints = g.rng.ints := by
  cases hd : dictGet g.viability_dict s with
  | some b => rw [get_viability_of_mem p hd]
  | none => rw [get_viability_of_fresh p hd]; rfl

theorem rng_ints_gvn_loop (seq : Seq) (p : ℚ) :
    ∀ (l : List ℕ) (g : Globals),
      (Genotype.get_viable_neighbors_loop seq p l g).2.rng.ints = g.rng.ints
  | [], _ => rfl
  | i :: rest, g => by
    show (Genotype.get_viable_neighbors_loop seq p rest
        (Genotype.init (Genotype.mutate seq [i]) p g).2).2.rng.ints = g.rng.ints
    rw [rng_ints_gvn_loop seq p rest _, init_snd, rng_ints_get_viability]

theorem rng_ints_get_robustness (gen : Genotype) (g : Globals) :
    (Genotype.get_robustness gen g).2.rng.ints = g.rng.ints := by
  unfold Genotype.get_robustness
  cases hd : dictGet g.nu_dict gen.seq with
  | some nu => rfl
  | none =>
    show (Genotype.get_viable_neighbors_loop gen.seq gen.p
        (List.range gen.L) g).2.rng.ints = g.rng.ints
    exact rng_ints_gvn_loop gen.seq gen.p (List.range gen.L) g

theorem substitute_loop_succ (p : ℚ) (cur : Genotype) (blind : Bool)
    (fuel : ℕ) (g : Globals) :
    Population.substitute_loop p cur blind (fuel + 1) g =
      (if (Genotype.init (Genotype.mutate_random cur.seq g).1 p
            (Genotype.mutate_random cur.seq g).2).1.viable then
        some ((Genotype.init (Genotype.mutate_random cur.seq g).1 p
                 (Genotype.mutate_random cur.seq g).2).1,
              (Genotype.init (Genotype.mutate_random cur.seq g).1 p
                 (Genotype.mutate_random cur.seq g).2).2)
      else if blind then
        some (cur, (Genotype.init (Genotype.mutate_random cur.seq g).1 p
                      (Genotype.mutate_random cur.seq g).2).2)
      else Population.substitute_loop p cur blind fuel
        (Genotype.init (Genotype.mutate_random cur.seq g).1 p
           (Genotype.mutate_random cur.seq g).2).2) := rfl

theorem substitute_loop_succ_blind (pop : Population) (fuel : ℕ)
    (g : Globals) :
    Population.substitute_loop pop.p pop.current true (fuel + 1) g =
      (if (blindMutant pop g).1.viable then
        some ((blindMutant pop g).1, (blindMutant pop g).2)
      else some (pop.current, (blindMutant pop g).2)) := rfl

/-- Claim C6: a blind-ant `Population.substitute` draws exactly one
uniformly random one-site mutant (consuming exactly one int of the random
source), the population moves to the mutant exactly when it is viable,
`n_steps` grows by one, `dist` is recomputed to the ancestor, one snapshot
keyed by the new `n_steps` is appended with all earlier history entries
unchanged, and the ancestor is untouched. -/
theorem claim_C6 (pop : Population) (fuel : ℕ) (g : Globals)
    (hfresh : dictGet pop.history (pop.n_steps + 1) = none) :
    (Population.substitute pop true (fuel + 1) g).isSome = true ∧
    (∀ pop' g', Population.substitute pop true (fuel + 1) g = some (pop', g') →
      (Genotype.mutate_random pop.current.seq g).1 =
        Genotype.mutate pop.current.seq
          [g.rng.ints 0 % pop.current.seq.length] ∧
      ((blindMutant pop g).1.viable = true →
        pop'.current = (blindMutant pop g).1) ∧
      ((blindMutant pop g).1.viable = false → pop'.current = pop.current) ∧
      pop'.n_steps = pop.n_steps + 1 ∧
      pop'.dist = Genotype.dist pop'.current.seq pop.ancestor.seq ∧
      pop'.history = pop.history ++
        [(pop.n_steps + 1, ⟨pop'.current.seq, pop'.dist, pop'.current_nu⟩)] ∧
      pop'.ancestor = pop.ancestor ∧
      g'.rng.ints = fun n => g.rng.ints (n + 1)) := by
  by_cases hv : (blindMutant pop g).1.viable = true
  · have hl : Population.substitute_loop pop.p pop.current true (fuel + 1) g =
        some ((blindMutant pop g).1, (blindMutant pop g).2) := by
      rw [substitute_loop_succ_blind, if_pos hv]
    have hs : Population.substitute pop true (fuel + 1) g =
        some ({ pop with
                current := (blindMutant pop g).1
                current_nu := (Genotype.get_robustness (blindMutant pop g).1
                  (blindMutant pop g).2).1
                n_steps := pop.n_steps + 1
                dist := Genotype.dist (blindMutant pop g).1.seq pop.ancestor.seq
                history := dictUpd pop.history (pop.n_steps + 1)
                  ⟨(blindMutant pop g).1.seq,
                   Genotype.dist (blindMutant pop g).1.seq pop.ancestor.seq,
                   (Genotype.get_robustness (blindMutant pop g).1
                     (blindMutant pop g).2).1⟩ },
              (Genotype.get_robustness (blindMutant pop g).1
                (blindMutant pop g).2).2) := by
      unfold Population.substitute
      rw [hl]
    refine ⟨by rw [hs]; rfl, ?_⟩
    intro pop' g' h
    rw [hs] at h
    injection h with h1
    injection h1 with h2 h3
    subst h2
    subst h3
    refine ⟨rfl, fun _ => rfl, ?_, rfl, rfl, ?_, rfl, ?_⟩
    · intro hf
      rw [hf] at hv
      cases hv
    · show dictUpd pop.history (pop.n_steps + 1) _ = _
      rw [dictUpd_fresh _ hfresh]
    · show (Genotype.get_robustness (blindMutant pop g).1
        (blindMutant pop g).2).2.rng.ints = _
      rw [rng_ints_get_robustness]
      show (Genotype.init _ pop.p _).2.rng.ints = _
      rw [init_snd, rng_ints_get_viability]
      rfl
  · have hl : Population.substitute_loop pop.p pop.current true (fuel + 1) g =
        some (pop.current, (blindMutant pop g).2) := by
      rw [substitute_loop_succ_blind, if_neg hv]
    have hs : Population.substitute pop true (fuel + 1) g =
        some ({ pop with
                current := pop.current
                current_nu := (Genotype.get_robustness pop.current
                  (blindMutant pop g).2).1
                n_steps := pop.n_steps + 1
                dist := Genotype.dist pop.current.seq pop.ancestor.seq
                history := dictUpd pop.history (pop.n_steps + 1)
                  ⟨pop.current.seq,
                   Genotype.dist pop.current.seq pop.ancestor.seq,
                   (Genotype.get_robustness pop.current
                     (blindMutant pop g).2).1⟩ },
              (Genotype.get_robustness pop.current (blindMutant pop g).2).2) := by
      unfold Population.substitute
      rw [hl]
    refine ⟨by rw [hs]; rfl, ?_⟩
    intro pop' g' h
    rw [hs] at h
    injection h with h1
    injection h1 with h2 h3
    subst h2
    subst h3
    refine ⟨rfl, ?_, fun _ => rfl, rfl, rfl, ?_, rfl, ?_⟩
    · intro ht
      exact absurd ht hv
    · show dictUpd pop.history (pop.n_steps + 1) _ = _
      rw [dictUpd_fresh _ hfresh]
    · show (Genotype.get_robustness pop.current
        (blindMutant pop g).2).2.rng.ints = _
      rw [rng_ints_get_robustness]
      show (Genotype.init _ pop.p _).2.rng.ints = _
      rw [init_snd, rng_ints_get_viability]
      rfl

/-- Claim C6 witness: one blind-ant step of the demo population increments
`n_steps` and appends exactly one snapshot. -/
theorem claim_C6_witness :
    demoPopStep.1.n_steps = demoPop.n_steps + 1 ∧
    demoPopStep.1.history = demoPop.history ++
      [(demoPop.n_steps + 1,
        ⟨demoPopStep.1.current.seq, demoPopStep.1.dist,
         demoPopStep.1.current_nu⟩)] := by
  have h := (claim_C6 demoPop 0 demoPopG (by decide)).2 demoPopStep.1
    demoPopStep.2 rfl
  exact ⟨h.2.2.2.1, h.2.2.2.2.2.1⟩

/-! ## The divergence process (claims C5, C9, C10) -/

theorem population_substitute_ancestor (pop : Population) (blind : Bool)
    (fuel : ℕ) (g : Globals) (pop' : Population) (g' : Globals)
    (h : Population.substitute pop blind fuel g = some (pop', g')) :
    pop'.ancestor = pop.ancestor := by
  unfold Population.substitute at h
  cases hl : Population.substitute_loop pop.p pop.current blind fuel g with
  | none => rw [hl] at h; cases h
  | some res =>
    rw [hl] at h
    obtain ⟨cur, g1⟩ := res
    cases h
    rfl

theorem population_substitute_n_steps (pop : Population) (blind : Bool)
    (fuel : ℕ) (g : Globals) (pop' : Population) (g' : Globals)
    (h : Population.substitute pop blind fuel g = some (pop', g')) :
    pop'.n_steps = pop.n_steps + 1 := by
  unfold Population.substitute at h
  cases hl : Population.substitute_loop pop.p pop.current blind fuel g with
  | none => rw [hl] at h; cases h
  | some res =>
    rw [hl] at h
    obtain ⟨cur, g1⟩ := res
    cases h
    rfl

theorem step_pop_eq (o : Orr) (blind : Bool) (fuel : ℕ) (g : Globals) :
    Orr.step_pop o blind fuel g =
      (if g.rng.floats 0 < half then
        (Population.substitute o.pop1 blind fuel
            { g with rng := g.rng.nextFloat.2 }).map
          (fun x => ({ o with pop1 := x.1 }, x.2))
      else
        (Population.substitute o.pop2 blind fuel
            { g with rng := g.rng.nextFloat.2 }).map
          (fun x => ({ o with pop2 := x.1 }, x.2))) := rfl

/-- Phase one of `Orr.substitute`: the coin picks one population, that
population substitutes, the other and every other field are untouched. -/
theorem step_pop_some (o : Orr) (blind : Bool) (fuel : ℕ) (g : Globals)
    (o1 : Orr) (g1 : Globals)
    (hs : Orr.step_pop o blind fuel g = some (o1, g1)) :
    o1.n_steps = o.n_steps ∧ o1.history = o.history ∧
    ((g.rng.floats 0 < half ∧ o1.pop2 = o.pop2 ∧
        Population.substitute o.pop1 blind fuel
          { g with rng := g.rng.nextFloat.2 } = some (o1.pop1, g1)) ∨
      (¬g.rng.floats 0 < half ∧ o1.pop1 = o.pop1 ∧
        Population.substitute o.pop2 blind fuel
          { g with rng := g.rng.nextFloat.2 } = some (o1.pop2, g1))) := by
  rw [step_pop_eq] at hs
  by_cases hc : g.rng.floats 0 < half
  · rw [if_pos hc] at hs
    cases hp : Population.substitute o.pop1 blind fuel
        { g with rng := g.rng.nextFloat.2 } with
    | none => rw [hp] at hs; cases hs
    | some pres =>
      rw [hp] at hs
      obtain ⟨p1, gp⟩ := pres
      dsimp only [Option.map] at hs
      injection hs with hs1
      injection hs1 with hs2 hs3
      subst hs2
      subst hs3
      exact ⟨rfl, rfl, Or.inl ⟨hc, rfl, rfl⟩⟩
  · rw [if_neg hc] at hs
    cases hp : Population.substitute o.pop2 blind fuel
        { g with rng := g.rng.nextFloat.2 } with
    | none => rw [hp] at hs; cases hs
    | some pres =>
      rw [hp] at hs
      obtain ⟨p2, gp⟩ := pres
      dsimp only [Option.map] at hs
      injection hs with hs1
      injection hs1 with hs2 hs3
      subst hs2
      subst hs3
      exact ⟨rfl, rfl, Or.inr ⟨hc, rfl, rfl⟩⟩

/-- Phase two of `Orr.substitute`: given a successful step, the pops carry
over from phase one, `n_steps` is incremented, the distance is recomputed,
one snapshot is recorded under the new key, and the incompatibility dicts
are empty at distance at most 1 and the `get_IIs` results beyond. -/
theorem orr_substitute_char (o : Orr) (blind : Bool) (fuel : ℕ) (g : Globals)
    (o' : Orr) (g' : Globals)
    (h : Orr.substitute o blind fuel g = some (o', g')) :
    ∃ o1 g1, Orr.step_pop o blind fuel g = some (o1, g1) ∧
      o'.pop1 = o1.pop1 ∧ o'.pop2 = o1.pop2 ∧
      o'.n_steps = o1.n_steps + 1 ∧
      o'.dist = Genotype.dist o1.pop1.current.seq o1.pop2.current.seq ∧
      (∃ snap, o'.history = dictUpd o1.history (o1.n_steps + 1) snap) ∧
      (o'.dist ≤ 1 → o'.II1 = [] ∧ o'.II2 = []) ∧
      (1 < o'.dist →
        ∀ ii1 g2, Genotype.get_IIs o1.pop1.current o1.pop2.current g1 =
            .ok (ii1, g2) →
          o'.II1 = ii1 ∧
          ∀ ii2 g3, Genotype.get_IIs o1.pop2.current o1.pop1.current g2 =
              .ok (ii2, g3) →
            o'.II2 = ii2) := by
  unfold Orr.substitute at h
  cases hs : Orr.step_pop o blind fuel g with
  | none => rw [hs] at h; cases h
  | some res =>
    rw [hs] at h
    obtain ⟨o1, g1⟩ := res
    dsimp only at h
    refine ⟨o1, g1, rfl, ?_⟩
    by_cases hdist : 1 < Genotype.dist o1.pop1.current.seq o1.pop2.current.seq
    · rw [if_pos hdist] at h
      cases hii1 : Genotype.get_IIs o1.pop1.current o1.pop2.current g1 with
      | error e => rw [hii1] at h; cases h
      | ok res1 =>
        rw [hii1] at h
        obtain ⟨ii1, g2⟩ := res1
        dsimp only at h
        cases hii2 : Genotype.get_IIs o1.pop2.current o1.pop1.current g2 with
        | error e => rw [hii2] at h; cases h
        | ok res2 =>
          rw [hii2] at h
          obtain ⟨ii2, g3⟩ := res2
          dsimp only at h
          cases h
          refine ⟨rfl, rfl, rfl, rfl, ⟨_, rfl⟩, ?_, ?_⟩
          · intro hle
            dsimp only at hle
            omega
          · intro _ ii1' g2' hii1'
            injection hii1' with he0
            injection he0 with he1 he2
            subst he1
            subst he2
            refine ⟨rfl, ?_⟩
            intro ii2' g3' hii2'
            have hf := hii2.symm.trans hii2'
            injection hf with hf0
            injection hf0 with hf1 hf2
    · rw [if_neg hdist] at h
      cases h
      refine ⟨rfl, rfl, rfl, rfl, ⟨_, rfl⟩, fun _ => ⟨rfl, rfl⟩, ?_⟩
      intro hgt
      exact absurd hgt hdist

/-- Claim C5: after every `Orr.substitute` step, if the inter-lineage
distance is at most 1 then `II1` and `II2` are both empty; when it exceeds
1 they are exactly the two `get_IIs` results recomputed, in both
directions, from the post-substitution populations. -/
theorem claim_C5 (o : Orr) (blind : Bool) (fuel : ℕ) (g : Globals)
    (o' : Orr) (g' : Globals) (o1 : Orr) (g1 : Globals)
    (h : Orr.substitute o blind fuel g = some (o', g'))
    (hs : Orr.step_pop o blind fuel g = some (o1, g1)) :
    (o'.dist ≤ 1 → o'.II1 = [] ∧ o'.II2 = []) ∧
    (1 < o'.dist →
      ∀ ii1 g2, Genotype.get_IIs o1.pop1.current o1.pop2.current g1 =
          .ok (ii1, g2) →
        o'.II1 = ii1 ∧
        ∀ ii2 g3, Genotype.get_IIs o1.pop2.current o1.pop1.current g2 =
            .ok (ii2, g3) →
          o'.II2 = ii2) := by
  obtain ⟨o1', g1', hs', _, _, _, _, _, hle, hgt⟩ :=
    orr_substitute_char o blind fuel g o' g' h
  rw [hs] at hs'
  injection hs' with hx
  injection hx with hx1 hx2
  subst hx1
  subst hx2
  exact ⟨hle, hgt⟩

/-- Claim C5 witness: the demo step ends at distance 1, so both
incompatibility dicts are empty. -/
theorem claim_C5_witness :
    demoStep.1.II1 = [] ∧ demoStep.1.II2 = [] :=
  (claim_C5 demoOrr true 1 demoOrrG demoStep.1 demoStep.2 demoStepPop.1
    demoStepPop.2 rfl rfl).1 (by decide)

/-- Claim C9: every `Orr.substitute` step substitutes in exactly one of the
two populations — `pop1` when the drawn coin is below 0.5, else `pop2` —
leaving the entire state of the other population unchanged; and no
population substitution ever changes the ancestor genotype. -/
theorem claim_C9 :
    (∀ (o : Orr) (blind : Bool) (fuel : ℕ) (g : Globals) (o' : Orr)
      (g' : Globals),
      Orr.substitute o blind fuel g = some (o', g') →
      ((g.rng.floats 0 < half →
          o'.pop2 = o.pop2 ∧
          (Population.substitute o.pop1 blind fuel
              { g with rng := g.rng.nextFloat.2 }).map Prod.fst =
            some o'.pop1) ∧
        (¬g.rng.floats 0 < half →
          o'.pop1 = o.pop1 ∧
          (Population.substitute o.pop2 blind fuel
              { g with rng := g.rng.nextFloat.2 }).map Prod.fst =
            some o'.pop2)) ∧
      o'.pop1.ancestor = o.pop1.ancestor ∧
      o'.pop2.ancestor = o.pop2.ancestor) ∧
    (∀ (pop : Population) (blind : Bool) (fuel : ℕ) (g : Globals)
      (pop' : Population) (g' : Globals),
      Population.substitute pop blind fuel g = some (pop', g') →
      pop'.ancestor = pop.ancestor) := by
  refine ⟨?_, population_substitute_ancestor⟩
  intro o blind fuel g o' g' h
  obtain ⟨o1, g1, hs, hp1, hp2, _, _, _, _, _⟩ :=
    orr_substitute_char o blind fuel g o' g' h
  obtain ⟨_, _, hor⟩ := step_pop_some o blind fuel g o1 g1 hs
  rcases hor with ⟨hc, hq2, hq⟩ | ⟨hc, hq1, hq⟩
  · refine ⟨⟨fun _ => ⟨hp2.trans hq2, ?_⟩, fun hcn => absurd hc hcn⟩, ?_, ?_⟩
    · rw [hq, hp1]
      rfl
    · rw [hp1]
      exact population_substitute_ancestor o.pop1 blind fuel _ o1.pop1 g1 hq
    · rw [hp2, hq2]
  · refine ⟨⟨fun hcy => absurd hcy hc, fun _ => ⟨hp1.trans hq1, ?_⟩⟩, ?_, ?_⟩
    · rw [hq, hp2]
      rfl
    · rw [hp1, hq1]
    · rw [hp2]
      exact population_substitute_ancestor o.pop2 blind fuel _ o1.pop2 g1 hq

/-- Claim C9 witness: the demo coin picks `pop1`, so `pop2` is untouched
and both ancestors are preserved. -/
theorem claim_C9_witness :
    demoStep.1.pop2 = demoOrr.pop2 ∧
    demoStep.1.pop1.ancestor = demoOrr.pop1.ancestor := by
  have h := claim_C9.1 demoOrr true 1 demoOrrG demoStep.1 demoStep.2 rfl
  exact ⟨(h.1.1 (by decide)).1, h.2.1⟩

/-! ## Step and history bookkeeping (claim C10) -/

theorem dictGet_none_of_not_mem {α β : Type} [DecidableEq α]
    {d : List (α × β)} {k : α} (h : k ∉ d.map Prod.fst) :
    dictGet d k = none := by
  induction d with
  | nil => rfl
  | cons kv rest ih =>
    obtain ⟨a, b⟩ := kv
    rw [dictGet_cons]
    rw [List.map_cons] at h
    simp only [List.mem_cons] at h
    push_neg at h
    rw [if_neg h.1]
    exact ih h.2

theorem dictGet_isSome_of_mem {α β : Type} [DecidableEq α]
    {d : List (α × β)} {k : α} (h : k ∈ d.map Prod.fst) :
    (dictGet d k).isSome = true := by
  induction d with
  | nil => simp at h
  | cons kv rest ih =>
    obtain ⟨a, b⟩ := kv
    rw [dictGet_cons]
    rw [List.map_cons] at h
    rcases List.mem_cons.mp h with h1 | h2
    · rw [if_pos h1]; rfl
    · by_cases hk : k = a
      · rw [if_pos hk]; rfl
      · rw [if_neg hk]; exact ih h2

theorem orr_init_char (ancestor : Genotype) (g : Globals) (o0 : Orr)
    (g0 : Globals) (h : Orr.init ancestor g = .ok (o0, g0)) :
    o0.n_steps = 0 ∧ o0.pop1.n_steps = 0 ∧ o0.pop2.n_steps = 0 ∧
    o0.history.map Prod.fst = [0] := by
  unfold Orr.init at h
  cases hp : Population.init ancestor g with
  | error e => rw [hp] at h; cases h
  | ok res =>
    rw [hp] at h
    obtain ⟨pop1, g1⟩ := res
    dsimp only at h
    cases h
    unfold Population.init at hp
    by_cases hv : ancestor.viable = true
    · rw [if_pos hv] at hp
      injection hp with hp0
      injection hp0 with hp1 hp2
      refine ⟨rfl, ?_, ?_, rfl⟩
      · rw [← hp1]
      · rw [← hp1]
    · rw [if_neg hv] at hp; cases hp

theorem orr_substitute_inv (o : Orr) (blind : Bool) (fuel : ℕ) (g : Globals)
    (o' : Orr) (g' : Globals)
    (h : Orr.substitute o blind fuel g = some (o', g'))
    (hsum : o.n_steps = o.pop1.n_steps + o.pop2.n_steps)
    (hkeys : o.history.map Prod.fst = List.range (o.n_steps + 1)) :
    o'.n_steps = o'.pop1.n_steps + o'.pop2.n_steps ∧
    o'.history.map Prod.fst = List.range (o'.n_steps + 1) := by
  obtain ⟨o1, g1, hs, hp1, hp2, hn, _, ⟨snap, hh⟩, _, _⟩ :=
    orr_substitute_char o blind fuel g o' g' h
  obtain ⟨hn1, hh1, hor⟩ := step_pop_some o blind fuel g o1 g1 hs
  have hfresh : dictGet o1.history (o1.n_steps + 1) = none := by
    rw [hh1, hn1]
    apply dictGet_none_of_not_mem
    rw [hkeys]
    intro hmem
    have := List.mem_range.mp hmem
    omega
  have hist' : o'.history.map Prod.fst = List.range (o.n_steps + 2) := by
    rw [hh, dictUpd_fresh _ hfresh, List.map_append, hh1, hn1, hkeys,
      List.map_cons, List.map_nil, ← List.range_succ]
  constructor
  · rw [hn, hn1, hp1, hp2]
    rcases hor with ⟨_, hq2, hq⟩ | ⟨_, hq1, hq⟩
    · have hstep := population_substitute_n_steps o.pop1 blind fuel _
        o1.pop1 g1 hq
      rw [hstep, hq2]
      omega
    · have hstep := population_substitute_n_steps o.pop2 blind fuel _
        o1.pop2 g1 hq
      rw [hstep, hq1]
      omega
  · rw [hist', hn, hn1]

/-- Claim C10: after any sequence of `Orr.substitute` calls, the process's
`n_steps` equals `pop1.n_steps + pop2.n_steps`, and the history keys are
exactly the contiguous integers `0 .. n_steps` — one snapshot per step plus
the initial snapshot — so every lookup `history[t]` made by the statistics
extraction over `range(len(history))` succeeds. -/
theorem claim_C10 (ancestor : Genotype) (g : Globals) (o0 : Orr)
    (g0 : Globals) (hinit : Orr.init ancestor g = .ok (o0, g0)) :
    ∀ (steps : List (Bool × ℕ)) (o : Orr) (g' : Globals),
      Orr.run o0 g0 steps = some (o, g') →
      o.n_steps = o.pop1.n_steps + o.pop2.n_steps ∧
      o.history.map Prod.fst = List.range (o.n_steps + 1) ∧
      o.history.length = o.n_steps + 1 ∧
      (∀ t, t < o.history.length → (dictGet o.history t).isSome = true) := by
  have hrun : ∀ (steps : List (Bool × ℕ)) (oA : Orr) (gA : Globals)
      (oB : Orr) (gB : Globals),
      oA.n_steps = oA.pop1.n_steps + oA.pop2.n_steps →
      oA.history.map Prod.fst = List.range (oA.n_steps + 1) →
      Orr.run oA gA steps = some (oB, gB) →
      oB.n_steps = oB.pop1.n_steps + oB.pop2.n_steps ∧
      oB.history.map Prod.fst = List.range (oB.n_steps + 1) := by
    intro steps
    induction steps with
    | nil =>
      intro oA gA oB gB h1 h2 hr
      unfold Orr.run at hr
      injection hr with hr0
      injection hr0 with hr1 hr2
      subst hr1
      exact ⟨h1, h2⟩
    | cons sf rest ih =>
      intro oA gA oB gB h1 h2 hr
      obtain ⟨blind, fuel⟩ := sf
      unfold Orr.run at hr
      cases hsub : Orr.substitute oA blind fuel gA with
      | none => rw [hsub] at hr; cases hr
      | some res =>
        rw [hsub] at hr
        obtain ⟨o1, g1⟩ := res
        have hinv := orr_substitute_inv oA blind fuel gA o1 g1 hsub h1 h2
        exact ih o1 g1 oB gB hinv.1 hinv.2 hr
  intro steps o g' hr
  obtain ⟨hi0, hi1, hi2, hi3⟩ := orr_init_char ancestor g o0 g0 hinit
  have h1 : o0.n_steps = o0.pop1.n_steps + o0.pop2.n_steps := by
    rw [hi0, hi1, hi2]
  have h2 : o0.history.map Prod.fst = List.range (o0.n_steps + 1) := by
    rw [hi3, hi0]
    rfl
  obtain ⟨hb1, hb2⟩ := hrun steps o0 g0 o g' h1 h2 hr
  have hlen : o.history.length = o.n_steps + 1 := by
    have hc := congrArg List.length hb2
    rwa [List.length_map, List.length_range] at hc
  refine ⟨hb1, hb2, hlen, ?_⟩
  intro t ht
  apply dictGet_isSome_of_mem
  rw [hb2]
  rw [hlen] at ht
  exact List.mem_range.mpr ht

/-- Claim C10 witness: after one step of the demo process, `n_steps` is the
sum of the two populations' step counts and the history keys are `[0, 1]`. -/
theorem claim_C10_witness :
    demoStep.1.n_steps = demoStep.1.pop1.n_steps + demoStep.1.pop2.n_steps ∧
    demoStep.1.history.map Prod.fst = List.range (demoStep.1.n_steps + 1) := by
  have h := claim_C10 demoAncestor demoG demoOrr demoOrrG rfl [(true, 1)]
    demoStep.1 demoStep.2 rfl
  exact ⟨h.1, h.2.1⟩

end HoleyPop
